import Mathlib

/-!
Verification of the `subly` package (subly.go): a helper that subscribes
methods of a struct type as NATS callbacks following a naming convention.

Go strings are modelled as `List Char`.  All characters this package
manipulates (`/`, `.`, `(`, `)`, `*`, `_`, the suffixes `Message` and
`Queue`) are single-byte ASCII, so byte indices and character indices
coincide on every comparison the code performs, and `strings.ToLower` is
modelled by the ASCII `Char.toLower` (Go and the model agree on ASCII
identifiers).  The NATS transport is modelled by an oracle saying which
subscribe calls fail, and each goroutine spawned to wait on context
cancellation is modelled as a parked watcher in a small transition system.
-/

namespace Subly

/-- Go strings as lists of characters. -/
abbrev GoStr := List Char

/-- Convert a Lean string literal to the `GoStr` model. -/
def strL (s : String) : GoStr := s.toList

/-- `strings.LastIndex(name, "/")` for a single character: the index of the
last occurrence, or `-1` when absent (Go returns an `int`). -/
def lastIndexOf (c : Char) : GoStr → Int
  | [] => -1
  | x :: xs =>
    let r := lastIndexOf c xs
    if 0 ≤ r then r + 1
    else if x == c then 0 else -1

/-- The `strings.NewReplacer("(", "", ")", "", "*", "")` pass of
`polishKindName`: every `(`, `)` and `*` character is removed. -/
def removeDecor (s : GoStr) : GoStr :=
  s.filter fun x => !(x == '(' || x == ')' || x == '*')

/-- `strings.Split(s, sep)` for a one-character separator: `n` separators
yield `n+1` (possibly empty) parts; the empty string yields `[""]`. -/
def splitOnChar (c : Char) : GoStr → List GoStr
  | [] => [[]]
  | x :: xs =>
    match splitOnChar c xs with
    | [] => [[]]
    | p :: ps => if x == c then [] :: p :: ps else (x :: p) :: ps

/-- `strings.Join(parts, ".")`. -/
def joinDots : List GoStr → GoStr
  | [] => []
  | [p] => p
  | p :: q :: ps => p ++ '.' :: joinDots (q :: ps)

/-- Last element of a list, with a default for the empty list. -/
def lastD {α : Type} : List α → α → α
  | [], d => d
  | [a], _ => a
  | _ :: b :: bs, d => lastD (b :: bs) d

/-- `strings.HasSuffix(s, suf)`: length check plus equality of the tail. -/
def hasSuffix (s suf : GoStr) : Bool :=
  decide (suf.length ≤ s.length) && (List.drop (s.length - suf.length) s == suf)

/-- `strings.TrimSuffix(s, suf)`: remove `suf` once if it is a suffix. -/
def trimSuffix (s suf : GoStr) : GoStr :=
  if hasSuffix s suf then List.take (s.length - suf.length) s else s

/-- `strings.ToLower`, ASCII model (`Char.toLower` maps `A`..`Z` down). -/
def toLowerStr (s : GoStr) : GoStr := s.map Char.toLower

/-- A string with no ASCII uppercase letter, the model's reading of
"lower-case". -/
def isLowerStr (s : GoStr) : Bool :=
  s.all fun c => !(decide (65 ≤ c.toNat) && decide (c.toNat ≤ 90))

/-- Lines 55-58 of subly.go: the namespace-strip step of `polishKindName`.
The Go code strips up to and including the last `/` only when its index is
positive and it is not the final byte. -/
def stripNamespace (name : GoStr) : GoStr :=
  if 0 < lastIndexOf '/' name ∧ lastIndexOf '/' name + 1 < (name.length : Int)
  then name.drop (lastIndexOf '/' name + 1).toNat else name

/-- Lines 65-67 of subly.go: `if take < len(parts)` keep the last `take`
parts (`take` already clamped to be non-negative). -/
def takeStep (parts : List GoStr) (tk : Int) : List GoStr :=
  if tk < (parts.length : Int) then parts.drop (parts.length - tk.toNat) else parts

/-- Lines 68-70 of subly.go: `if drop > 0 && drop < len(parts)` remove the
last `drop` parts. -/
def dropStep (parts : List GoStr) (dp : Int) : List GoStr :=
  if 0 < dp ∧ dp < (parts.length : Int) then parts.take (parts.length - dp.toNat) else parts

/-- Lines 59-71 of subly.go: everything `polishKindName` does after the
namespace strip: decoration removal, split on `.`, clamp `take` to be
non-negative, take step, drop step, rejoin. -/
def polishTail (name : GoStr) (take drop : Int) : GoStr :=
  joinDots
    (dropStep
      (takeStep (splitOnChar '.' (removeDecor name)) (if take < 0 then 0 else take))
      drop)

/-- `polishKindName` (subly.go lines 54-73), the code's `resolveTypeLabel`. -/
def polishKindName (name : GoStr) (take drop : Int) : GoStr :=
  polishTail (stripNamespace name) take drop

/-- The namespace-strip step as the spec words it: strip everything up to
and including the last `/` whenever one occurs. -/
def stripNamespaceSpec (name : GoStr) : GoStr :=
  if 0 ≤ lastIndexOf '/' name
  then name.drop (lastIndexOf '/' name + 1).toNat else name

/-- The spec's reference algorithm for `resolveTypeLabel`: identical to the
code after the strip step, but the strip follows the spec's words. -/
def refResolveTypeLabel (name : GoStr) (take drop : Int) : GoStr :=
  polishTail (stripNamespaceSpec name) take drop

/-- The slash configurations on which the code's guarded strip coincides
with the spec's unconditional strip: no `/` at all, or a last `/` at a
positive index that is not the final character. -/
def goodSlash (name : GoStr) : Prop :=
  lastIndexOf '/' name = -1 ∨
    (0 < lastIndexOf '/' name ∧ lastIndexOf '/' name + 1 < (name.length : Int))

instance (name : GoStr) : Decidable (goodSlash name) := by
  unfold goodSlash; infer_instance

/-- The "bare final type-name segment" of a qualified type string: what is
left after stripping the namespace (spec reading), removing decorations and
keeping only the last dot-separated part. -/
def bareFinalSegment (T : GoStr) : GoStr :=
  lastD (splitOnChar '.' (removeDecor (stripNamespaceSpec T))) []

/-- Whether a string contains any pointer/parenthesis decoration character. -/
def hasDecoration (T : GoStr) : Bool :=
  T.any fun c => c == '(' || c == ')' || c == '*'

/-- The suffix `"Message"`. -/
def strMessage : GoStr := strL "Message"

/-- The suffix `"Queue"`. -/
def strQueue : GoStr := strL "Queue"

/-- The suffix `"MessageQueue"`. -/
def strMessageQueue : GoStr := strL "MessageQueue"

/-- The `serviceMessage` record of subly.go (lines 75-79).  The bound
callable `message` is identified by the method name it was taken from. -/
structure serviceMessage where
  queue : Bool
  serviceName : GoStr
  messageName : GoStr
  message : GoStr
deriving DecidableEq

/-- The per-member part of the `getMessages` loop (subly.go lines 89-112):
suffix tests, skip, and derivation of `(queued, messageName)`. -/
def resolveMember (nm : GoStr) : Option (Bool × GoStr) :=
  let isMessage := hasSuffix nm strMessage
  let isMessageQueue := hasSuffix nm strMessageQueue
  if !isMessage && !isMessageQueue then none
  else
    some (isMessageQueue,
      toLowerStr (trimSuffix (trimSuffix nm strQueue) strMessage))

/-- `getMessages` (subly.go lines 81-118).  Reflection is modelled by
passing the type string `t.String()` and the list of method names. -/
def getMessages (typeName : GoStr) (methodNames : List GoStr) : List serviceMessage :=
  methodNames.filterMap fun nm =>
    (resolveMember nm).map fun r =>
      { queue := r.1
        serviceName := toLowerStr (polishKindName typeName 1 0)
        messageName := r.2
        message := nm }

/-- One registration call issued to the NATS connection: either
`econn.Subscribe(subject, cb)` or `econn.QueueSubscribe(subject, queue, cb)`. -/
inductive Attempt where
  | plain (subject : GoStr)
  | queued (queueName subject : GoStr)
deriving DecidableEq

/-- The transport oracle: which subscribe calls return an error. -/
structure Transport where
  subFails : GoStr → Bool
  qsubFails : GoStr → GoStr → Bool

/-- A transport on which every subscribe call succeeds. -/
def trivialTransport : Transport := ⟨fun _ => false, fun _ _ => false⟩

/-- Observable effects of a batch of registrations: the subscribe calls
issued, the errors logged, and the cancellation watchers spawned. -/
structure SubState where
  calls : List Attempt
  logged : List Attempt
  watchers : List Attempt
deriving DecidableEq

/-- The state before any registration. -/
def initState : SubState := ⟨[], [], []⟩

/-- `sub` (subly.go lines 120-137): issue `econn.Subscribe`; on error log
and return without a watcher, on success spawn a cancellation watcher. -/
def sub (tr : Transport) (subject : GoStr) (st : SubState) : SubState :=
  if tr.subFails subject then
    { st with
        calls := st.calls ++ [Attempt.plain subject]
        logged := st.logged ++ [Attempt.plain subject] }
  else
    { st with
        calls := st.calls ++ [Attempt.plain subject]
        watchers := st.watchers ++ [Attempt.plain subject] }

/-- `qsub` (subly.go lines 139-156): queue-group variant of `sub`. -/
def qsub (tr : Transport) (queueName subject : GoStr) (st : SubState) : SubState :=
  if tr.qsubFails subject queueName then
    { st with
        calls := st.calls ++ [Attempt.queued queueName subject]
        logged := st.logged ++ [Attempt.queued queueName subject] }
  else
    { st with
        calls := st.calls ++ [Attempt.queued queueName subject]
        watchers := st.watchers ++ [Attempt.queued queueName subject] }

/-- The call a descriptor gives rise to in `Subscribe` (lines 178-193). -/
def attemptOf (v : serviceMessage) : Attempt :=
  if v.queue then
    Attempt.queued (v.serviceName ++ '_' :: v.messageName)
      (v.serviceName ++ '.' :: v.messageName)
  else Attempt.plain (v.serviceName ++ '.' :: v.messageName)

/-- Whether the transport rejects a given call. -/
def attemptFails (tr : Transport) : Attempt → Bool
  | .plain subject => tr.subFails subject
  | .queued queueName subject => tr.qsubFails subject queueName

/-- Body of the `Subscribe` loop (subly.go lines 176-194). -/
def regStep (tr : Transport) (st : SubState) (v : serviceMessage) : SubState :=
  let subject := v.serviceName ++ '.' :: v.messageName
  if v.queue then qsub tr (v.serviceName ++ '_' :: v.messageName) subject st
  else sub tr subject st

/-- `Subscriber.Subscribe` (subly.go lines 174-195). -/
def Subscribe (tr : Transport) (typeName : GoStr) (methodNames : List GoStr)
    (st : SubState) : SubState :=
  (getMessages typeName methodNames).foldl (regStep tr) st

/-- Body of the `SubscribeFunc` loop (subly.go lines 205-222). -/
def funcStep (tr : Transport) (queueName : GoStr) (st : SubState)
    (e : GoStr × GoStr) : SubState :=
  if queueName ≠ [] then qsub tr queueName e.1 st else sub tr e.1 st

/-- `Subscriber.SubscribeFunc` (subly.go lines 200-223).  The Go map is
modelled as a list of `(subject, callback)` entries in some iteration
order; the variadic `queue ...string` is a list. -/
def SubscribeFunc (tr : Transport) (messages : List (GoStr × GoStr))
    (queue : List GoStr) (st : SubState) : SubState :=
  let queueName := match queue with | [] => ([] : GoStr) | q :: _ => q
  messages.foldl (funcStep tr queueName) st

/-- State of the cancellation machinery: whether the context has been
cancelled, which watcher goroutines are still parked on `ctx.Done()`, and
the unsubscribe calls performed so far (subly.go lines 130-136, 149-155). -/
structure CancelState where
  cancelled : Bool
  parked : List Nat
  fired : List Nat
deriving DecidableEq

/-- One scheduler step: the context is cancelled, or some parked watcher
(only after cancellation) wakes, calls `Unsubscribe` once and exits. -/
inductive CancelStep : CancelState → CancelState → Prop where
  | signal (p f : List Nat) : CancelStep ⟨false, p, f⟩ ⟨true, p, f⟩
  | fire (p f : List Nat) (w : Nat) (h : w ∈ p) :
      CancelStep ⟨true, p, f⟩ ⟨true, p.erase w, f ++ [w]⟩

/-- Initial state after `N` successful registrations: `N` watchers parked,
nothing cancelled, nothing unsubscribed. -/
def initCancel (N : Nat) : CancelState := ⟨false, List.range N, []⟩

/-- A state from which no scheduler step is possible. -/
def Terminal (s : CancelState) : Prop := ∀ t, ¬ CancelStep s t

/-- Termination measure for the cancellation system. -/
def cancelMeasure (s : CancelState) : Nat :=
  s.parked.length + (if s.cancelled then 0 else 1)

/-! ### Basic lemmas about the string primitives -/

lemma splitOnChar_ne_nil (c : Char) (s : GoStr) : splitOnChar c s ≠ [] := by
  cases s with
  | nil => simp [splitOnChar]
  | cons x xs =>
    unfold splitOnChar
    cases splitOnChar c xs with
    | nil => simp
    | cons p ps =>
      by_cases h : x == c <;> simp [h]

lemma drop_length_sub_one {α : Type} (d : α) :
    ∀ (l : List α), l ≠ [] → List.drop (l.length - 1) l = [lastD l d] := by
  intro l
  induction l with
  | nil => intro h; exact absurd rfl h
  | cons a l ih =>
    intro _
    cases l with
    | nil => simp [lastD]
    | cons b bs =>
      have h2 := ih (by simp)
      simp only [List.length_cons] at h2 ⊢
      rw [Nat.add_sub_cancel] at h2 ⊢
      show List.drop (bs.length + 1) (a :: b :: bs) = [lastD (a :: b :: bs) d]
      rw [List.drop_succ_cons]
      simpa [lastD] using h2

lemma takeStep_one {parts : List GoStr} (h : parts ≠ []) :
    takeStep parts 1 = [lastD parts []] := by
  unfold takeStep
  by_cases h1 : (1 : Int) < (parts.length : Int)
  · rw [if_pos h1]
    show parts.drop (parts.length - (1 : Int).toNat) = _
    norm_num
    exact drop_length_sub_one [] parts h
  · rw [if_neg h1]
    have hlen : parts.length = 1 := by
      have hle : (parts.length : Int) ≤ 1 := not_lt.mp h1
      have h0 : 0 < parts.length := List.length_pos.mpr h
      omega
    obtain ⟨a, rfl⟩ := List.length_eq_one.mp hlen
    rfl

lemma dropStep_zero (parts : List GoStr) : dropStep parts 0 = parts := by
  unfold dropStep
  norm_num

lemma polishTail_one_zero (s : GoStr) :
    polishTail s 1 0 = lastD (splitOnChar '.' (removeDecor s)) [] := by
  unfold polishTail
  norm_num
  rw [takeStep_one (splitOnChar_ne_nil '.' (removeDecor s)), dropStep_zero]
  simp [joinDots]

lemma strip_eq_of_goodSlash {name : GoStr} (h : goodSlash name) :
    stripNamespace name = stripNamespaceSpec name := by
  unfold goodSlash at h
  unfold stripNamespace stripNamespaceSpec
  rcases h with h | ⟨h1, h2⟩
  · rw [h]; norm_num
  · rw [if_pos ⟨h1, h2⟩, if_pos (le_of_lt h1)]

/-! ### C1 and C2: `polishKindName` against the spec's reference algorithm -/

/-- C1 counterexample: the claim asserts that `polishKindName` equals the
reference algorithm on every input, in particular when the last `/` is the
first character.  On `"/a"` the code keeps the string unchanged (its guard
`ix > 0` fails) while the reference strips the namespace, so the outputs
differ (`"/a"` vs `"a"`). -/
theorem c1_counterexample :
    polishKindName (strL "/a") 1 0 ≠ refResolveTypeLabel (strL "/a") 1 0 := by
  decide

/-- C1 (amended): for every input string and every pair of integers,
`polishKindName` computes exactly the spec's reference algorithm, provided
the input has no `/`, or its last `/` is at a positive index and is not the
final character.  (On the remaining inputs the code skips the namespace
strip while the reference performs it.)  Totality is inherent: both sides
are total functions into strings. -/
theorem c1_polish_eq_ref (name : GoStr) (take drop : Int) (h : goodSlash name) :
    polishKindName name take drop = refResolveTypeLabel name take drop := by
  unfold polishKindName refResolveTypeLabel
  rw [strip_eq_of_goodSlash h]

/-- C1 witness: the amended theorem applied at a concrete qualified type
string with the hypotheses discharged by evaluation. -/
theorem c1_witness :
    goodSlash (strL "pkg/sub.(*SomeService)") ∧
    polishKindName (strL "pkg/sub.(*SomeService)") 1 0 =
      refResolveTypeLabel (strL "pkg/sub.(*SomeService)") 1 0 :=
  ⟨by decide, c1_polish_eq_ref (strL "pkg/sub.(*SomeService)") 1 0 (by decide)⟩

/-- C2 counterexample: `"/(*S)"` contains a namespace separator and
decorations, yet `polishKindName` with `(1, 0)` returns `"/S"`, not the
bare final type-name segment `"S"`: the code's guard `ix > 0` skips the
namespace strip when the only `/` is the first character. -/
theorem c2_counterexample :
    (strL "/(*S)").contains '/' = true ∧
    hasDecoration (strL "/(*S)") = true ∧
    polishKindName (strL "/(*S)") 1 0 ≠ bareFinalSegment (strL "/(*S)") := by
  decide

/-- C2 (amended): for every qualified type string containing decorations
whose last `/` sits at a positive index and is not the final character,
`polishKindName` with `take=1, drop=0` returns exactly the bare final
type-name segment: namespace stripped, decorations removed, last
dot-separated part. -/
theorem c2_bare_segment (T : GoStr)
    (h1 : 0 < lastIndexOf '/' T)
    (h2 : lastIndexOf '/' T + 1 < (T.length : Int))
    (_h3 : hasDecoration T = true) :
    polishKindName T 1 0 = bareFinalSegment T := by
  unfold polishKindName bareFinalSegment
  rw [strip_eq_of_goodSlash (Or.inr ⟨h1, h2⟩)]
  exact polishTail_one_zero (stripNamespaceSpec T)

/-- C2 witness: the amended theorem applied at `"pkg/sub.(*SomeService)"`,
which indeed resolves to `"SomeService"`. -/
theorem c2_witness :
    polishKindName (strL "pkg/sub.(*SomeService)") 1 0 = bareFinalSegment (strL "pkg/sub.(*SomeService)") ∧
    bareFinalSegment (strL "pkg/sub.(*SomeService)") = strL "SomeService" :=
  ⟨c2_bare_segment (strL "pkg/sub.(*SomeService)") (by decide) (by decide) (by decide),
   by decide⟩

/-! ### Suffix lemmas -/

lemma hasSuffix_iff {s suf : GoStr} : hasSuffix s suf = true ↔ suf <:+ s := by
  unfold hasSuffix
  simp only [Bool.and_eq_true, decide_eq_true_eq, beq_iff_eq]
  constructor
  · rintro ⟨hle, hdrop⟩
    refine ⟨s.take (s.length - suf.length), ?_⟩
    conv_rhs => rw [← List.take_append_drop (s.length - suf.length) s]
    rw [hdrop]
  · rintro ⟨t, rfl⟩
    refine ⟨by simp, ?_⟩
    have h : (t ++ suf).length - suf.length = t.length := by simp
    rw [h, List.drop_left]

lemma hasSuffix_append (t suf : GoStr) : hasSuffix (t ++ suf) suf = true :=
  hasSuffix_iff.mpr ⟨t, rfl⟩

lemma trimSuffix_append (t suf : GoStr) : trimSuffix (t ++ suf) suf = t := by
  unfold trimSuffix
  rw [if_pos (hasSuffix_append t suf)]
  have h : (t ++ suf).length - suf.length = t.length := by simp
  rw [h, List.take_left]

lemma exists_of_hasSuffix {s suf : GoStr} (h : hasSuffix s suf = true) :
    ∃ t, s = t ++ suf := by
  rcases hasSuffix_iff.mp h with ⟨t, ht⟩
  exact ⟨t, ht.symm⟩

lemma trimSuffix_of_not_suffix {s suf : GoStr} (h : hasSuffix s suf = false) :
    trimSuffix s suf = s := by
  unfold trimSuffix
  rw [h]
  simp

lemma message_not_queue {nm : GoStr} (h : hasSuffix nm strMessage = true) :
    hasSuffix nm strQueue = false := by
  by_contra hq
  rw [Bool.not_eq_false] at hq
  rcases List.suffix_or_suffix_of_suffix (hasSuffix_iff.mp h) (hasSuffix_iff.mp hq)
    with h3 | h3
  · exact absurd h3 (by decide)
  · exact absurd h3 (by decide)

/-! ### Lower-casing lemmas -/

lemma char_toNat_ofNat {n : Nat} (h : n.isValidChar) : (Char.ofNat n).toNat = n := by
  unfold Char.ofNat
  rw [dif_pos h]
  rfl

lemma toLower_not_upper (c : Char) :
    (decide (65 ≤ (Char.toLower c).toNat) && decide ((Char.toLower c).toNat ≤ 90)) = false := by
  simp only [Char.toLower]
  split
  next h =>
    have hv : (c.toNat + 32).isValidChar := Or.inl (by omega)
    rw [char_toNat_ofNat hv]
    have hgt : ¬(c.toNat + 32 ≤ 90) := by omega
    simp [hgt]
  next h =>
    by_cases h65 : 65 ≤ c.toNat
    · have h90 : ¬(c.toNat ≤ 90) := fun hc => h ⟨h65, hc⟩
      simp [h90]
    · simp [h65]

lemma isLowerStr_toLowerStr (s : GoStr) : isLowerStr (toLowerStr s) = true := by
  unfold isLowerStr toLowerStr
  rw [List.all_map]
  apply List.all_eq_true.mpr
  intro c _
  simp only [Function.comp_apply]
  rw [toLower_not_upper]
  rfl

lemma toLowerStr_ne_nil {s : GoStr} (h : s ≠ []) : toLowerStr s ≠ [] := by
  unfold toLowerStr
  rw [Ne, List.map_eq_nil_iff]
  exact h

/-! ### Member resolution lemmas -/

lemma resolveMember_none {nm : GoStr} (h1 : hasSuffix nm strMessage = false)
    (h2 : hasSuffix nm strMessageQueue = false) : resolveMember nm = none := by
  simp [resolveMember, h1, h2]

lemma resolveMember_mq {nm : GoStr} (h : hasSuffix nm strMessageQueue = true) :
    resolveMember nm =
      some (true, toLowerStr (trimSuffix (trimSuffix nm strQueue) strMessage)) := by
  simp [resolveMember, h]

lemma resolveMember_msg {nm : GoStr} (h1 : hasSuffix nm strMessage = true)
    (h2 : hasSuffix nm strMessageQueue = false) :
    resolveMember nm = some (false, toLowerStr (trimSuffix nm strMessage)) := by
  have hq := message_not_queue h1
  simp [resolveMember, h1, h2, trimSuffix_of_not_suffix hq]

lemma mq_decomp : strMessageQueue = strMessage ++ strQueue := by decide

lemma messageName_ne_nil {nm : GoStr} {b : Bool} {mn : GoStr}
    (h : resolveMember nm = some (b, mn))
    (h1 : nm ≠ strMessage) (h2 : nm ≠ strMessageQueue) : mn ≠ [] := by
  by_cases hmq : hasSuffix nm strMessageQueue = true
  · rw [resolveMember_mq hmq] at h
    obtain ⟨t, rfl⟩ := exists_of_hasSuffix hmq
    have hsplit : t ++ strMessageQueue = (t ++ strMessage) ++ strQueue := by
      rw [mq_decomp, List.append_assoc]
    rw [hsplit, trimSuffix_append, trimSuffix_append] at h
    simp only [Option.some.injEq, Prod.mk.injEq] at h
    obtain ⟨hb, hmn⟩ := h
    subst hmn
    apply toLowerStr_ne_nil
    intro ht
    subst ht
    simp at h2
  · have hmq' : hasSuffix nm strMessageQueue = false := by
      rw [← Bool.not_eq_true]; exact hmq
    have hmsg : hasSuffix nm strMessage = true := by
      by_contra hm
      rw [Bool.not_eq_true] at hm
      rw [resolveMember_none hm hmq'] at h
      exact Option.noConfusion h
    rw [resolveMember_msg hmsg hmq'] at h
    obtain ⟨t, rfl⟩ := exists_of_hasSuffix hmsg
    rw [trimSuffix_append] at h
    simp only [Option.some.injEq, Prod.mk.injEq] at h
    obtain ⟨hb, hmn⟩ := h
    subst hmn
    apply toLowerStr_ne_nil
    intro ht
    subst ht
    simp at h1

lemma mem_getMessages {tn : GoStr} {names : List GoStr} {d : serviceMessage} :
    d ∈ getMessages tn names ↔
      ∃ nm ∈ names, ∃ b mn, resolveMember nm = some (b, mn) ∧
        d = ⟨b, toLowerStr (polishKindName tn 1 0), mn, nm⟩ := by
  unfold getMessages
  rw [List.mem_filterMap]
  constructor
  · rintro ⟨nm, hmem, hsome⟩
    rcases Option.map_eq_some'.mp hsome with ⟨r, hr, hd⟩
    exact ⟨nm, hmem, r.1, r.2, hr, hd.symm⟩
  · rintro ⟨nm, hmem, b, mn, hr, rfl⟩
    exact ⟨nm, hmem, by rw [hr]; rfl⟩

/-! ### C3: member resolution -/

/-- C3: a member name ending in `"MessageQueue"` resolves to `queued=true`
with `messageName` the lower-cased name minus the trailing `"Queue"` then
the trailing `"Message"`; a name ending in `"Message"` but not
`"MessageQueue"` resolves to `queued=false` with `messageName` the
lower-cased name minus the trailing `"Message"`. -/
theorem c3_resolve_member (nm : GoStr) :
    (hasSuffix nm strMessageQueue = true →
      resolveMember nm =
        some (true, toLowerStr (trimSuffix (trimSuffix nm strQueue) strMessage))) ∧
    (hasSuffix nm strMessage = true → hasSuffix nm strMessageQueue = false →
      resolveMember nm = some (false, toLowerStr (trimSuffix nm strMessage))) :=
  ⟨fun h => resolveMember_mq h, fun h1 h2 => resolveMember_msg h1 h2⟩

/-- C3 witness: the theorem applied at the spec's two examples,
`"SubActionMessage" ↦ ("subaction", false)` and
`"RepActionMessageQueue" ↦ ("repaction", true)`. -/
theorem c3_witness :
    resolveMember (strL "SubActionMessage") = some (false, strL "subaction") ∧
    resolveMember (strL "RepActionMessageQueue") = some (true, strL "repaction") :=
  ⟨((c3_resolve_member (strL "SubActionMessage")).2 (by decide) (by decide)).trans
      (by decide),
   ((c3_resolve_member (strL "RepActionMessageQueue")).1 (by decide)).trans
      (by decide)⟩

/-! ### C8: unmatched members are silently skipped -/

/-- C8: a member name ending in neither `"Message"` nor `"MessageQueue"`
produces no descriptor: enumeration of a method list containing it yields
exactly the descriptors of the remaining methods, with no error reported
(the model has no error channel in enumeration at all). -/
theorem c8_unmatched_skipped (tn nm : GoStr) (pre post : List GoStr)
    (h1 : hasSuffix nm strMessage = false)
    (h2 : hasSuffix nm strMessageQueue = false) :
    getMessages tn (pre ++ nm :: post) = getMessages tn (pre ++ post) := by
  unfold getMessages
  rw [List.filterMap_append, List.filterMap_append, List.filterMap_cons,
    resolveMember_none h1 h2]
  rfl

/-- C8 witness: a member named `"Handle"` is skipped in a concrete batch. -/
theorem c8_witness :
    getMessages (strL "subly.someService") [strL "SubActionMessage", strL "Handle"] =
      getMessages (strL "subly.someService") [strL "SubActionMessage"] :=
  c8_unmatched_skipped (strL "subly.someService") (strL "Handle")
    [strL "SubActionMessage"] [] (by decide) (by decide)

/-! ### Registration lemmas -/

lemma sub_calls (tr : Transport) (subject : GoStr) (st : SubState) :
    (sub tr subject st).calls = st.calls ++ [Attempt.plain subject] := by
  unfold sub; split <;> rfl

lemma qsub_calls (tr : Transport) (queueName subject : GoStr) (st : SubState) :
    (qsub tr queueName subject st).calls =
      st.calls ++ [Attempt.queued queueName subject] := by
  unfold qsub; split <;> rfl

lemma sub_watchers (tr : Transport) (subject : GoStr) (st : SubState) :
    (sub tr subject st).watchers =
      st.watchers ++
        (if tr.subFails subject then [] else [Attempt.plain subject]) := by
  unfold sub
  by_cases h : tr.subFails subject <;> simp [h]

lemma qsub_watchers (tr : Transport) (queueName subject : GoStr) (st : SubState) :
    (qsub tr queueName subject st).watchers =
      st.watchers ++
        (if tr.qsubFails subject queueName then [] else [Attempt.queued queueName subject]) := by
  unfold qsub
  by_cases h : tr.qsubFails subject queueName <;> simp [h]

lemma sub_logged (tr : Transport) (subject : GoStr) (st : SubState) :
    (sub tr subject st).logged =
      st.logged ++
        (if tr.subFails subject then [Attempt.plain subject] else []) := by
  unfold sub
  by_cases h : tr.subFails subject <;> simp [h]

lemma qsub_logged (tr : Transport) (queueName subject : GoStr) (st : SubState) :
    (qsub tr queueName subject st).logged =
      st.logged ++
        (if tr.qsubFails subject queueName then [Attempt.queued queueName subject] else []) := by
  unfold qsub
  by_cases h : tr.qsubFails subject queueName <;> simp [h]

lemma regStep_calls (tr : Transport) (st : SubState) (v : serviceMessage) :
    (regStep tr st v).calls = st.calls ++ [attemptOf v] := by
  unfold regStep attemptOf
  by_cases h : v.queue <;> simp [h, sub_calls, qsub_calls]

lemma regStep_watchers (tr : Transport) (st : SubState) (v : serviceMessage) :
    (regStep tr st v).watchers =
      st.watchers ++ (if attemptFails tr (attemptOf v) then [] else [attemptOf v]) := by
  unfold regStep attemptOf
  by_cases h : v.queue <;> simp [h, sub_watchers, qsub_watchers, attemptFails]

lemma regStep_logged (tr : Transport) (st : SubState) (v : serviceMessage) :
    (regStep tr st v).logged =
      st.logged ++ (if attemptFails tr (attemptOf v) then [attemptOf v] else []) := by
  unfold regStep attemptOf
  by_cases h : v.queue <;> simp [h, sub_logged, qsub_logged, attemptFails]

lemma foldl_reg_calls (tr : Transport) :
    ∀ (l : List serviceMessage) (st : SubState),
      (l.foldl (regStep tr) st).calls = st.calls ++ l.map attemptOf := by
  intro l
  induction l with
  | nil => intro st; simp
  | cons v l ih =>
    intro st
    simp only [List.foldl_cons, List.map_cons]
    rw [ih, regStep_calls, List.append_assoc]
    rfl

lemma foldl_reg_watchers (tr : Transport) :
    ∀ (l : List serviceMessage) (st : SubState),
      (l.foldl (regStep tr) st).watchers =
        st.watchers ++ (l.map attemptOf).filter (fun a => !attemptFails tr a) := by
  intro l
  induction l with
  | nil => intro st; simp
  | cons v l ih =>
    intro st
    simp only [List.foldl_cons, List.map_cons, List.filter_cons]
    rw [ih, regStep_watchers]
    by_cases h : attemptFails tr (attemptOf v) <;>
      simp [h, List.append_assoc]

lemma foldl_reg_logged (tr : Transport) :
    ∀ (l : List serviceMessage) (st : SubState),
      (l.foldl (regStep tr) st).logged =
        st.logged ++ (l.map attemptOf).filter (attemptFails tr) := by
  intro l
  induction l with
  | nil => intro st; simp
  | cons v l ih =>
    intro st
    simp only [List.foldl_cons, List.map_cons, List.filter_cons]
    rw [ih, regStep_logged]
    by_cases h : attemptFails tr (attemptOf v) <;>
      simp [h, List.append_assoc]

lemma funcStep_calls (tr : Transport) (qn : GoStr) (st : SubState) (e : GoStr × GoStr) :
    (funcStep tr qn st e).calls =
      st.calls ++ [if qn ≠ [] then Attempt.queued qn e.1 else Attempt.plain e.1] := by
  unfold funcStep
  by_cases h : qn = [] <;> simp [h, sub_calls, qsub_calls]

lemma foldl_func_calls (tr : Transport) (qn : GoStr) :
    ∀ (l : List (GoStr × GoStr)) (st : SubState),
      (l.foldl (funcStep tr qn) st).calls =
        st.calls ++ l.map (fun e => if qn ≠ [] then Attempt.queued qn e.1 else Attempt.plain e.1) := by
  intro l
  induction l with
  | nil => intro st; simp
  | cons e l ih =>
    intro st
    simp only [List.foldl_cons, List.map_cons]
    rw [ih, funcStep_calls, List.append_assoc]
    rfl

lemma subscribe_calls_eq (tr : Transport) (tn : GoStr) (names : List GoStr) :
    (Subscribe tr tn names initState).calls = (getMessages tn names).map attemptOf := by
  unfold Subscribe
  rw [foldl_reg_calls]
  rfl

lemma resolveMember_shape {nm : GoStr} {b : Bool} {mn : GoStr}
    (h : resolveMember nm = some (b, mn)) :
    b = hasSuffix nm strMessageQueue ∧
    mn = toLowerStr (trimSuffix (trimSuffix nm strQueue) strMessage) := by
  simp only [resolveMember] at h
  split at h
  · exact Option.noConfusion h
  · simp only [Option.some.injEq, Prod.mk.injEq] at h
    exact ⟨h.1.symm, h.2.symm⟩

/-! ### C5: `Subscribe` registers each descriptor on its derived subject -/

/-- C5: for every transport, type string and method list, `Subscribe` issues
exactly one registration call per enumerated descriptor, in order: a
queue-group subscription on subject `serviceName.messageName` with queue
name `serviceName_messageName` when the descriptor is queued, and a plain
subscription on `serviceName.messageName` otherwise. -/
theorem c5_subscribe_calls (tr : Transport) (tn : GoStr) (names : List GoStr) :
    (Subscribe tr tn names initState).calls =
      (getMessages tn names).map (fun v =>
        if v.queue then
          Attempt.queued (v.serviceName ++ '_' :: v.messageName)
            (v.serviceName ++ '.' :: v.messageName)
        else Attempt.plain (v.serviceName ++ '.' :: v.messageName)) := by
  rw [subscribe_calls_eq]
  rfl

/-! ### C7: a subscribe failure is local to its own descriptor -/

/-- C7: failed registrations are exactly the ones logged to the diagnostic
sink, a failed registration spawns no watcher (watchers are exactly the
non-failing calls), no error propagates to the caller (`Subscribe` is a
total function into states), and the calls issued do not depend on which
attempts the transport rejects: every other descriptor in the batch is
still registered. -/
theorem c7_failure_isolation (tr tr' : Transport) (tn : GoStr) (names : List GoStr) :
    (Subscribe tr tn names initState).logged =
        ((Subscribe tr tn names initState).calls).filter (attemptFails tr) ∧
    (Subscribe tr tn names initState).watchers =
        ((Subscribe tr tn names initState).calls).filter (fun a => !attemptFails tr a) ∧
    (Subscribe tr tn names initState).calls = (Subscribe tr' tn names initState).calls := by
  refine ⟨?_, ?_, ?_⟩
  · unfold Subscribe
    rw [foldl_reg_logged, foldl_reg_calls]
    rfl
  · unfold Subscribe
    rw [foldl_reg_watchers, foldl_reg_calls]
    rfl
  · unfold Subscribe
    rw [foldl_reg_calls, foldl_reg_calls]

/-! ### C6: `SubscribeFunc` queue modes -/

/-- C6: with a non-empty first queue name every mapping entry is registered
as a queue-group subscription under that one shared queue name; with an
empty or absent queue name every entry is registered individually. -/
theorem c6_mapping_modes (tr : Transport) (entries : List (GoStr × GoStr)) :
    (∀ (qn : GoStr) (rest : List GoStr), qn ≠ [] →
      (SubscribeFunc tr entries (qn :: rest) initState).calls =
        entries.map (fun e => Attempt.queued qn e.1)) ∧
    (SubscribeFunc tr entries [] initState).calls =
      entries.map (fun e => Attempt.plain e.1) ∧
    (∀ rest : List GoStr,
      (SubscribeFunc tr entries ([] :: rest) initState).calls =
        entries.map (fun e => Attempt.plain e.1)) := by
  refine ⟨?_, ?_, ?_⟩
  · intro qn rest hqn
    unfold SubscribeFunc
    rw [foldl_func_calls]
    simp [hqn, initState]
  · unfold SubscribeFunc
    rw [foldl_func_calls]
    simp [initState]
  · intro rest
    unfold SubscribeFunc
    rw [foldl_func_calls]
    simp [initState]

/-- C6 witness: the theorem applied to a concrete two-entry mapping, once
with queue name `"q"` and once with no queue name. -/
theorem c6_witness :
    (SubscribeFunc trivialTransport [(strL "a", strL "f"), (strL "b", strL "g")]
        [strL "q"] initState).calls =
      [Attempt.queued (strL "q") (strL "a"), Attempt.queued (strL "q") (strL "b")] ∧
    (SubscribeFunc trivialTransport [(strL "a", strL "f"), (strL "b", strL "g")]
        [] initState).calls =
      [Attempt.plain (strL "a"), Attempt.plain (strL "b")] :=
  ⟨((c6_mapping_modes trivialTransport [(strL "a", strL "f"), (strL "b", strL "g")]).1
      (strL "q") [] (by decide)).trans (by decide),
   ((c6_mapping_modes trivialTransport [(strL "a", strL "f"), (strL "b", strL "g")]).2.1).trans
      (by decide)⟩

/-! ### C10: only the first variadic queue name matters -/

/-- C10: a `SubscribeFunc` call with two or more variadic queue-name
arguments behaves exactly like the call passing only the first: all
subsequent queue-name arguments are ignored. -/
theorem c10_extra_queue_args_ignored (tr : Transport) (entries : List (GoStr × GoStr))
    (q1 q2 : GoStr) (rest : List GoStr) (st : SubState) :
    SubscribeFunc tr entries (q1 :: q2 :: rest) st =
      SubscribeFunc tr entries [q1] st := rfl

/-! ### C4: descriptor invariants -/

/-- C4 counterexample: a method literally named `"Message"` is a real (valid
exported Go) member name, yet the descriptor enumerated from it has an
empty `messageName`, contradicting the claimed non-emptiness. -/
theorem c4_counterexample :
    (getMessages (strL "subly.someService") [strL "Message"]).map
        serviceMessage.messageName = [[]] := by
  decide

/-- C4 (amended): every enumerated descriptor has lower-case `serviceName`
and `messageName` (no ASCII uppercase); `serviceName` is non-empty whenever
the type string's resolved label is non-empty (true of every real Go type
string); `messageName` is non-empty except for members literally named
`"Message"` or `"MessageQueue"`; and every queued descriptor is registered
with derived queue name `serviceName_messageName`. -/
theorem c4_descriptor_invariants (tn : GoStr) (names : List GoStr) (tr : Transport)
    (htn : polishKindName tn 1 0 ≠ []) :
    ∀ d ∈ getMessages tn names,
      isLowerStr d.serviceName = true ∧
      isLowerStr d.messageName = true ∧
      d.serviceName ≠ [] ∧
      (d.message ≠ strMessage → d.message ≠ strMessageQueue → d.messageName ≠ []) ∧
      (d.queue = true →
        Attempt.queued (d.serviceName ++ '_' :: d.messageName)
            (d.serviceName ++ '.' :: d.messageName) ∈
          (Subscribe tr tn names initState).calls) := by
  intro d hd
  rcases mem_getMessages.mp hd with ⟨nm, hmem, b, mn, hr, rfl⟩
  refine ⟨isLowerStr_toLowerStr _, ?_, toLowerStr_ne_nil htn, ?_, ?_⟩
  · rw [(resolveMember_shape hr).2]
    exact isLowerStr_toLowerStr _
  · intro h1 h2
    exact messageName_ne_nil hr h1 h2
  · intro hq
    rw [subscribe_calls_eq]
    have hb : b = true := hq
    subst hb
    exact List.mem_map_of_mem attemptOf hd

/-- C4 witness: the amended theorem applied to the enumeration of a
concrete service with a queued member, with all hypotheses discharged by
evaluation. -/
theorem c4_witness :
    isLowerStr (strL "someservice") = true ∧
    isLowerStr (strL "repaction") = true ∧
    strL "someservice" ≠ [] ∧
    (strL "RepActionMessageQueue" ≠ strMessage →
      strL "RepActionMessageQueue" ≠ strMessageQueue → strL "repaction" ≠ []) ∧
    ((true : Bool) = true →
      Attempt.queued (strL "someservice" ++ '_' :: strL "repaction")
          (strL "someservice" ++ '.' :: strL "repaction") ∈
        (Subscribe trivialTransport (strL "subly.someService")
            [strL "RepActionMessageQueue"] initState).calls) :=
  c4_descriptor_invariants (strL "subly.someService") [strL "RepActionMessageQueue"]
    trivialTransport (by decide)
    ⟨true, strL "someservice", strL "repaction", strL "RepActionMessageQueue"⟩
    (by decide)

/-! ### C9: cancellation triggers exactly one unsubscribe per watcher -/

lemma cancelStep_inv {N : Nat} {s t : CancelState} (h : CancelStep s t)
    (hinv : (s.parked ++ s.fired).Perm (List.range N)) :
    (t.parked ++ t.fired).Perm (List.range N) := by
  cases h with
  | signal p f => exact hinv
  | fire p f w hw =>
    refine List.Perm.trans ?_ hinv
    have h1 : (p.erase w ++ (f ++ [w])).Perm ((p.erase w ++ f) ++ [w]) := by
      rw [List.append_assoc]
    have h2 : ((p.erase w ++ f) ++ [w]).Perm (w :: (p.erase w ++ f)) :=
      List.perm_append_singleton w _
    have h3 : ((w :: p.erase w) ++ f).Perm (p ++ f) :=
      List.Perm.append_right f (List.perm_cons_erase hw).symm
    exact (h1.trans h2).trans h3

lemma reach_inv {N : Nat} {s : CancelState}
    (h : Relation.ReflTransGen CancelStep (initCancel N) s) :
    (s.parked ++ s.fired).Perm (List.range N) := by
  induction h with
  | refl => simp [initCancel]
  | tail _ hbc ih => exact cancelStep_inv hbc ih

lemma terminal_shape {s : CancelState} (ht : Terminal s) :
    s.cancelled = true ∧ s.parked = [] := by
  obtain ⟨c, p, f⟩ := s
  cases c
  · exact absurd (CancelStep.signal p f) (ht _)
  · cases p with
    | nil => exact ⟨rfl, rfl⟩
    | cons w rest =>
      exact absurd (CancelStep.fire (w :: rest) f w (List.mem_cons_self w rest)) (ht _)

lemma cancelStep_measure {s t : CancelState} (h : CancelStep s t) :
    cancelMeasure t < cancelMeasure s := by
  cases h with
  | signal p f => simp [cancelMeasure]
  | fire p f w hw =>
    have hlen : (p.erase w).length = p.length - 1 := List.length_erase_of_mem hw
    have hpos : 0 < p.length := List.length_pos.mpr (List.ne_nil_of_mem hw)
    simp only [cancelMeasure, hlen]
    omega

/-- C9: if `N` watchers share one cancellation signal, then in every
complete run of the cancellation system (every terminal state reachable
from the initial one), exactly `N` unsubscribe calls have been performed,
each watcher's at most once (the call list has no duplicate watcher); and
every step strictly decreases the termination measure, so every run does
reach a terminal state regardless of scheduling. -/
theorem c9_cancellation (N : Nat) (s : CancelState)
    (hr : Relation.ReflTransGen CancelStep (initCancel N) s)
    (ht : Terminal s) :
    s.fired.length = N ∧ s.fired.Nodup ∧
      ∀ a b : CancelState, CancelStep a b → cancelMeasure b < cancelMeasure a := by
  have hinv := reach_inv hr
  obtain ⟨hc, hp⟩ := terminal_shape ht
  rw [hp] at hinv
  simp only [List.nil_append] at hinv
  exact ⟨hinv.length_eq.trans (List.length_range N),
    hinv.nodup_iff.mpr (List.nodup_range N),
    fun a b h => cancelStep_measure h⟩

/-- C9 witness: a complete two-watcher run, built step by step, performs
exactly the two unsubscribe calls. -/
theorem c9_witness :
    (CancelState.mk true [] [0, 1]).fired.length = 2 ∧
    (CancelState.mk true [] [0, 1]).fired.Nodup := by
  have s1 : CancelStep (initCancel 2) ⟨true, [0, 1], []⟩ := CancelStep.signal [0, 1] []
  have s2 : CancelStep (⟨true, [0, 1], []⟩ : CancelState) ⟨true, [1], [0]⟩ :=
    CancelStep.fire [0, 1] [] 0 (by decide)
  have s3 : CancelStep (⟨true, [1], [0]⟩ : CancelState) ⟨true, [], [0, 1]⟩ :=
    CancelStep.fire [1] [0] 1 (by decide)
  have hr : Relation.ReflTransGen CancelStep (initCancel 2) ⟨true, [], [0, 1]⟩ :=
    ((Relation.ReflTransGen.refl.tail s1).tail s2).tail s3
  have ht : Terminal (⟨true, [], [0, 1]⟩ : CancelState) := by
    intro t h
    cases h with
    | fire p f w hw => exact absurd hw (List.not_mem_nil w)
  have H := c9_cancellation 2 ⟨true, [], [0, 1]⟩ hr ht
  exact ⟨H.1, H.2.1⟩

end Subly
